import Mathlib

/-!
Verification development for the Hyperwallet encryption core
(`src/utils/Encryption.ts`).

The TypeScript class `Encryption` is shallowly embedded as pure Lean
functions over an explicit state (`EncState`, the mutable fields of the
class) and an explicit environment (`Env`, the outside world: filesystem,
HTTP, the `node-jose` JWK-set parser, the clock).  Cryptography from
`node-jose` is modelled symbolically: a signing or encryption key pair is
identified by a `material` tag, and a JWS verifies (resp. a JWE decrypts)
exactly when the key supplied carries the material of the key that
produced the token.  Asynchronous promise chains are translated to
sequential state passing, preserving the source's settle-once semantics
(the first `reject` fixes the result, later side effects still happen).
I/O performed by an operation is recorded in a trace of `Eff` events.
-/

deriving instance DecidableEq for Except

namespace HyperwalletEncryption

/-- Round-half-up division as performed by the JavaScript expression
`Math.round(num / den)` on nonnegative integers. -/
def jsRound (num den : Nat) : Nat :=
  (2 * num + den) / (2 * den)

/-- A raw JWK as far as this code observes it: key id (`kid`), algorithm
(`alg`) and an abstract tag identifying the underlying key material.  A
public/private pair of the same key shares the same `material`. -/
structure Key where
  kid : String
  alg : String
  material : Nat
deriving DecidableEq

/-- A `jose.JWK.KeyStore`: the keys of one JWK-set document, in document
order. -/
structure KeyStore where
  keys : List Key
deriving DecidableEq

/-- `keyStore.all({ alg })`: every key whose algorithm attribute equals
`alg`, in document order. -/
def KeyStore.all (ks : KeyStore) (alg : String) : List Key :=
  ks.keys.filter (fun k => k.alg = alg)

/-- Minimal JSON values, the payloads accepted by `encrypt`. -/
inductive Json where
  | null : Json
  | bool (b : Bool) : Json
  | num (n : Int) : Json
  | str (s : String) : Json
  | arr (xs : List Json) : Json
  | obj (fields : List (String × Json)) : Json

/-- Escaping of quote and backslash performed by `JSON.stringify` on
string data. -/
def jsonEscape (s : String) : String :=
  ⟨s.toList.flatMap (fun c => if c = '"' || c = '\\' then ['\\', c] else [c])⟩

mutual

/-- `JSON.stringify` on the modelled JSON values. -/
def Json.stringify : Json → String
  | .null => "null"
  | .bool b => if b then "true" else "false"
  | .num n => toString n
  | .str s => "\"" ++ jsonEscape s ++ "\""
  | .arr xs => "[" ++ Json.stringifyList xs ++ "]"
  | .obj fs => "\x7b" ++ Json.stringifyObj fs ++ "\x7d"

/-- Comma-separated serialization of a JSON array body. -/
def Json.stringifyList : List Json → String
  | [] => ""
  | [x] => Json.stringify x
  | x :: xs => Json.stringify x ++ "," ++ Json.stringifyList xs

/-- Comma-separated serialization of a JSON object body. -/
def Json.stringifyObj : List (String × Json) → String
  | [] => ""
  | [(k, v)] => "\"" ++ jsonEscape k ++ "\":" ++ Json.stringify v
  | (k, v) :: fs =>
      "\"" ++ jsonEscape k ++ "\":" ++ Json.stringify v ++ "," ++ Json.stringifyObj fs

end

/-- Protected header produced by `signBody`. -/
structure JwsHeader where
  alg : String
  crit : List String
  exp : Nat
  kid : String
deriving DecidableEq

/-- A compact JWS, symbolically: the protected header, the signed payload
text, and the material and algorithm of the key that produced the
signature (standing for the signature bytes). -/
structure JwsToken where
  header : JwsHeader
  payload : String
  sigMaterial : Nat
  sigAlg : String
deriving DecidableEq

/-- A compact JWE, symbolically: the fields of the encryption header, the
protected plaintext (always a signed body in this protocol), and the
material of the key used to encrypt (standing for the ciphertext). -/
structure JweToken where
  alg : String
  enc : String
  kid : String
  plaintext : JwsToken
  encMaterial : Nat
deriving DecidableEq

/-- The `jose.JWS.VerificationResult` as far as callers observe it:
verified payload and the header it was verified under. -/
structure VerificationResult where
  payload : String
  header : JwsHeader
deriving DecidableEq

/-- The errors the source rejects with, one constructor per `new Error`
site, plus `absentStore` for the `TypeError` raised by dereferencing a
key-store field that was never assigned. -/
inductive EncErr where
  | noKeyForAlg (alg : String) : EncErr
  | signatureExpired : EncErr
  | verifyFailed (kid : String) : EncErr
  | decryptFailed (kid : String) : EncErr
  | encryptFailed (kid : String) : EncErr
  | signFailed (kid : String) : EncErr
  | keyStoreCreateFailed : EncErr
  | wrongLocation (path : String) : EncErr
  | fsError (m : String) : EncErr
  | absentStore : EncErr
deriving DecidableEq

/-- The literal message string of each error as constructed in the
source. -/
def errMessage : EncErr → String
  | .noKeyForAlg a => "JWK set doesn\x27t contain key with algorithm = " ++ a
  | .signatureExpired => "JWS signature has expired"
  | .verifyFailed kid => "Failed to verify signature with key id = " ++ kid
  | .decryptFailed kid => "Failed to decrypt payload with key id = " ++ kid
  | .encryptFailed kid => "Failed to encrypt payload with key id = " ++ kid
  | .signFailed kid => "Failed to sign with key id = " ++ kid
  | .keyStoreCreateFailed => "Failed to create keyStore from given jwkSet"
  | .wrongLocation p => "Wrong JWK set location path = " ++ p
  | .fsError m => m
  | .absentStore => "TypeError: Cannot read properties of undefined"

/-- Whether `needle` is a prefix of `hay` (on character lists). -/
def listIsPrefix : List Char → List Char → Bool
  | [], _ => true
  | _ :: _, [] => false
  | a :: as, b :: bs => a = b && listIsPrefix as bs

/-- Whether `needle` occurs contiguously inside `hay` (on character
lists). -/
def listIsInfix (needle : List Char) : List Char → Bool
  | [] => listIsPrefix needle []
  | b :: bs => listIsPrefix needle (b :: bs) || listIsInfix needle bs

/-- Whether `needle` occurs as a contiguous substring of `hay`. -/
def strContains (hay needle : String) : Bool :=
  listIsInfix needle.toList hay.toList

/-- I/O events an operation can perform. -/
inductive Eff where
  | fsExists (loc : String) : Eff
  | fsRead (loc : String) : Eff
  | netGet (loc : String) : Eff
deriving DecidableEq

/-- Whether an event touches the filesystem. -/
def Eff.isFsAccess : Eff → Bool
  | .fsExists _ => true
  | .fsRead _ => true
  | .netGet _ => false

/-- Whether an event reads a file's contents. -/
def Eff.isFsRead : Eff → Bool
  | .fsRead _ => true
  | _ => false

/-- Whether an event is a network request. -/
def Eff.isNet : Eff → Bool
  | .netGet _ => true
  | _ => false

/-- Number of key-set fetches of location `loc` in a trace (a fetch is
either a file read or an HTTP GET; the `existsSync` probe is not a
fetch). -/
def fetchCount (tr : List Eff) (loc : String) : Nat :=
  tr.count (Eff.fsRead loc) + tr.count (Eff.netGet loc)

/-- The environment: outcomes of the external calls the source makes.
`readFileResult` is the outcome of `fs.readFile` (error message or file
text), `requestResult` the outcome of `request(url)` with the
body-or-text choice already applied, `asKeyStoreResult` the outcome of
`jose.JWK.asKeyStore` on a raw key-set string, `signFails` /
`encryptFails` whether the `node-jose` sign / encrypt primitive throws
for a given key (broken key material), and `nowMs` the clock. -/
structure Env where
  fileExists : String → Bool
  readFileResult : String → Except String String
  requestResult : String → Except Unit String
  asKeyStoreResult : String → Option KeyStore
  signFails : Key → Bool
  encryptFails : Key → Bool
  nowMs : Nat

/-- The mutable fields of the `Encryption` class. -/
structure EncState where
  clientPrivateKeySetLocation : String
  hyperwalletKeySetLocation : String
  clientKeyStore : Option KeyStore
  hwKeyStore : Option KeyStore
  encryptionAlgorithm : String
  signAlgorithm : String
  encryptionMethod : String
  jwsExpirationMinutes : Nat
deriving DecidableEq

/-- The constructor with its default arguments; key stores start
unassigned. -/
def mkEncryption (clientPrivateKeySetLocation hyperwalletKeySetLocation : String) : EncState :=
  { clientPrivateKeySetLocation := clientPrivateKeySetLocation
    hyperwalletKeySetLocation := hyperwalletKeySetLocation
    clientKeyStore := none
    hwKeyStore := none
    encryptionAlgorithm := "RSA-OAEP-256"
    signAlgorithm := "RS256"
    encryptionMethod := "A256CBC-HS512"
    jwsExpirationMinutes := 5 }

/-- `getCurrentTime`: `Math.round(Date.now() / 1000)`. -/
def getCurrentTime (env : Env) : Nat :=
  jsRound env.nowMs 1000

/-- `getSignatureExpirationTime`:
`Math.round((Date.now() + jwsExpirationMinutes * 60000) / 1000)`. -/
def getSignatureExpirationTime (env : Env) (s : EncState) : Nat :=
  jsRound (env.nowMs + s.jwsExpirationMinutes * 60000) 1000

/-- `signBody`: look up the first client key for the signing algorithm,
build the protected header with `crit = ['exp']`, the expiration claim
and the key id, and produce a compact JWS over the serialized body. -/
def signBody (env : Env) (s : EncState) (body : Json) : Except EncErr JwsToken :=
  match s.clientKeyStore with
  | none => .error .absentStore
  | some ks =>
    match (ks.all s.signAlgorithm).head? with
    | none => .error (.noKeyForAlg s.signAlgorithm)
    | some key =>
      if env.signFails key then .error (.signFailed key.kid)
      else
        .ok { header := { alg := key.alg
                          crit := ["exp"]
                          exp := getSignatureExpirationTime env s
                          kid := key.kid }
              payload := Json.stringify body
              sigMaterial := key.material
              sigAlg := key.alg }

/-- `encryptBody`: look up the first hyperwallet key for the encryption
algorithm and produce a compact JWE over the signed body with header
`{ alg, enc, kid }`. -/
def encryptBody (env : Env) (s : EncState) (body : JwsToken) : Except EncErr JweToken :=
  match s.hwKeyStore with
  | none => .error .absentStore
  | some ks =>
    match (ks.all s.encryptionAlgorithm).head? with
    | none => .error (.noKeyForAlg s.encryptionAlgorithm)
    | some key =>
      if env.encryptFails key then .error (.encryptFailed key.kid)
      else
        .ok { alg := key.alg
              enc := s.encryptionMethod
              kid := key.kid
              plaintext := body
              encMaterial := key.material }

/-- `decryptBody`: look up the first client key for the encryption
algorithm and decrypt; decryption succeeds exactly when the key pairs
with the one the JWE was encrypted under. -/
def decryptBody (s : EncState) (body : JweToken) : Except EncErr JwsToken :=
  match s.clientKeyStore with
  | none => .error .absentStore
  | some ks =>
    match (ks.all s.encryptionAlgorithm).head? with
    | none => .error (.noKeyForAlg s.encryptionAlgorithm)
    | some key =>
      if key.material = body.encMaterial then .ok body.plaintext
      else .error (.decryptFailed key.kid)

/-- `checkSignature`: look up the first hyperwallet key for the signing
algorithm and verify.  The signature check runs first; the `exp` handler
(a complete-phase `node-jose` crit handler) then rejects an expired
envelope before the verification result is delivered. -/
def checkSignature (env : Env) (s : EncState) (body : JwsToken) :
    Except EncErr VerificationResult :=
  match s.hwKeyStore with
  | none => .error .absentStore
  | some ks =>
    match (ks.all s.signAlgorithm).head? with
    | none => .error (.noKeyForAlg s.signAlgorithm)
    | some key =>
      if key.material = body.sigMaterial ∧ key.alg = body.sigAlg then
        if getCurrentTime env > body.header.exp then .error .signatureExpired
        else .ok { payload := body.payload, header := body.header }
      else .error (.verifyFailed key.kid)

/-- `readKeySet`: probe `fs.existsSync(path)`; on an existing file,
read it (forwarding the filesystem error message verbatim on failure);
otherwise issue one HTTP GET, rejecting with the wrong-location error
when the request fails. -/
def readKeySet (env : Env) (path : String) : List Eff × Except EncErr String :=
  if env.fileExists path then
    match env.readFileResult path with
    | .ok data => ([.fsExists path, .fsRead path], .ok data)
    | .error m => ([.fsExists path, .fsRead path], .error (.fsError m))
  else
    match env.requestResult path with
    | .ok body => ([.fsExists path, .netGet path], .ok body)
    | .error _ => ([.fsExists path, .netGet path], .error (.wrongLocation path))

/-- `createKeyStore`: fetch and parse the hyperwallet key set, then the
client key set, assigning each store as its set parses.  The promise
settles on the first `reject`, but — as in the source — a failed parse of
the hyperwallet set does not stop the chain: the client set is still
fetched and, if it parses, installed, while the overall call still
rejects with the first error. -/
def createKeyStore (env : Env) (s : EncState) :
    EncState × List Eff × Except EncErr Unit :=
  match readKeySet env s.hyperwalletKeySetLocation with
  | (t1, .error e) => (s, t1, .error e)
  | (t1, .ok hwRaw) =>
    match env.asKeyStoreResult hwRaw with
    | none =>
      match readKeySet env s.clientPrivateKeySetLocation with
      | (t2, .error _) => (s, t1 ++ t2, .error .keyStoreCreateFailed)
      | (t2, .ok cRaw) =>
        match env.asKeyStoreResult cRaw with
        | none => (s, t1 ++ t2, .error .keyStoreCreateFailed)
        | some cks =>
            ({ s with clientKeyStore := some cks }, t1 ++ t2,
              .error .keyStoreCreateFailed)
    | some hks =>
      let s1 := { s with hwKeyStore := some hks }
      match readKeySet env s.clientPrivateKeySetLocation with
      | (t2, .error e) => (s1, t1 ++ t2, .error e)
      | (t2, .ok cRaw) =>
        match env.asKeyStoreResult cRaw with
        | none => (s1, t1 ++ t2, .error .keyStoreCreateFailed)
        | some cks =>
            ({ s1 with clientKeyStore := some cks }, t1 ++ t2, .ok ())

/-- `encrypt`: when both key stores are assigned skip initialization,
otherwise run `createKeyStore`; then sign the body and encrypt the signed
result. -/
def encrypt (env : Env) (s : EncState) (body : Json) :
    EncState × List Eff × Except EncErr JweToken :=
  let init :=
    if s.clientKeyStore.isSome && s.hwKeyStore.isSome then (s, ([], Except.ok ()))
    else createKeyStore env s
  match init.2.2 with
  | .error e => (init.1, init.2.1, .error e)
  | .ok _ =>
    match signBody env init.1 body with
    | .error e => (init.1, init.2.1, .error e)
    | .ok signed =>
      match encryptBody env init.1 signed with
      | .error e => (init.1, init.2.1, .error e)
      | .ok ct => (init.1, init.2.1, .ok ct)

/-- `decrypt`: when the hyperwallet key store is assigned skip
initialization (the client store is not checked), otherwise run
`createKeyStore`; then decrypt the body and verify the signature of the
decrypted plaintext. -/
def decrypt (env : Env) (s : EncState) (body : JweToken) :
    EncState × List Eff × Except EncErr VerificationResult :=
  let init :=
    if s.hwKeyStore.isSome then (s, ([], Except.ok ()))
    else createKeyStore env s
  match init.2.2 with
  | .error e => (init.1, init.2.1, .error e)
  | .ok _ =>
    match decryptBody init.1 body with
    | .error e => (init.1, init.2.1, .error e)
    | .ok plain => (init.1, init.2.1, checkSignature env init.1 plain)

/-- Final state after an `encrypt` call. -/
def encryptState (env : Env) (s : EncState) (body : Json) : EncState :=
  (encrypt env s body).1

/-- I/O trace of an `encrypt` call. -/
def encryptTrace (env : Env) (s : EncState) (body : Json) : List Eff :=
  (encrypt env s body).2.1

/-- Result of an `encrypt` call. -/
def encryptRes (env : Env) (s : EncState) (body : Json) : Except EncErr JweToken :=
  (encrypt env s body).2.2

/-- Final state after a `decrypt` call. -/
def decryptState (env : Env) (s : EncState) (body : JweToken) : EncState :=
  (decrypt env s body).1

/-- I/O trace of a `decrypt` call. -/
def decryptTrace (env : Env) (s : EncState) (body : JweToken) : List Eff :=
  (decrypt env s body).2.1

/-- Result of a `decrypt` call. -/
def decryptRes (env : Env) (s : EncState) (body : JweToken) :
    Except EncErr VerificationResult :=
  (decrypt env s body).2.2

/-! ### Base64url segment helpers

`base64Decode` / `base64Encode` from the source split a compact envelope
on `.`, decode each segment with `jose.util.base64url.decode` (which
maps the URL-safe alphabet to 6-bit values, drops non-alphabet
characters and discards trailing bits that do not fill a byte, as
`Buffer.from(_, 'base64')` does), and re-encode with
`jose.util.base64url.encode`.  The codec is modelled at the level of
byte lists (`List Nat`, each entry `< 256`) and 6-bit values. -/

/-- The base64url alphabet, in value order. -/
def b64Alphabet : List Char :=
  "ABCDEFGHIJKLMNOPQRSTUVWXYZabcdefghijklmnopqrstuvwxyz0123456789-_".toList

/-- Character of a 6-bit value. -/
def b64Char (v : Nat) : Char :=
  b64Alphabet.getD v 'A'

/-- 6-bit value of an alphabet character; `none` on a non-alphabet
character (which the lenient decoder drops). -/
def b64CharVal (c : Char) : Option Nat :=
  b64Alphabet.findIdx? (fun a => a = c)

/-- Bytes to 6-bit values: 3 input bytes become 4 values; 1 or 2
trailing bytes become 2 or 3 values with zero-padded low bits (unpadded
base64url). -/
def encodeVals : List Nat → List Nat
  | [] => []
  | [b1] => [b1 / 4, b1 % 4 * 16]
  | [b1, b2] => [b1 / 4, b1 % 4 * 16 + b2 / 16, b2 % 16 * 4]
  | b1 :: b2 :: b3 :: rest =>
      b1 / 4 :: (b1 % 4 * 16 + b2 / 16) :: (b2 % 16 * 4 + b3 / 64) :: b3 % 64 ::
        encodeVals rest

/-- 6-bit values to bytes: 4 values become 3 bytes; 2 or 3 trailing
values become 1 or 2 bytes, discarding the bits that do not fill a
byte; a single dangling value is dropped. -/
def decodeVals : List Nat → List Nat
  | v1 :: v2 :: v3 :: v4 :: rest =>
      (v1 * 4 + v2 / 16) :: (v2 % 16 * 16 + v3 / 4) :: (v3 % 4 * 64 + v4) ::
        decodeVals rest
  | [v1, v2] => [v1 * 4 + v2 / 16]
  | [v1, v2, v3] => [v1 * 4 + v2 / 16, v2 % 16 * 16 + v3 / 4]
  | _ => []

/-- `jose.util.base64url.encode` on a byte buffer. -/
def encodeSegment (bytes : List Nat) : List Char :=
  (encodeVals bytes).map b64Char

/-- `jose.util.base64url.decode` on one segment. -/
def decodeSegment (cs : List Char) : List Nat :=
  decodeVals (cs.filterMap b64CharVal)

/-- `String.prototype.split` with a single-character separator. -/
def splitOnChar (sep : Char) : List Char → List (List Char)
  | [] => [[]]
  | c :: cs =>
    if c = sep then [] :: splitOnChar sep cs
    else
      match splitOnChar sep cs with
      | [] => [[c]]
      | g :: gs => (c :: g) :: gs

/-- `Array.prototype.join` with a single-character separator. -/
def joinChar (sep : Char) : List (List Char) → List Char
  | [] => []
  | [g] => g
  | g :: gs => g ++ sep :: joinChar sep gs

/-- The record returned by `base64Decode`: the decoded byte buffers, one
per segment. -/
structure DecodedBody where
  parts : List (List Nat)
deriving DecidableEq

/-- `base64Decode`: split the compact envelope on `.` and base64url-decode
each segment. -/
def base64Decode (encryptedBody : String) : DecodedBody :=
  ⟨(splitOnChar '.' encryptedBody.toList).map decodeSegment⟩

/-- `base64Encode`: base64url-encode each buffer (the source first
round-trips each buffer through `JSON.parse(JSON.stringify(part)).data`,
which reproduces the buffer's bytes) and join the segments with `.`. -/
def base64Encode (decodedBody : DecodedBody) : String :=
  ⟨joinChar '.' (decodedBody.parts.map encodeSegment)⟩

/-- A byte buffer: every entry below 256. -/
def bytesValid (bytes : List Nat) : Prop :=
  ∀ b ∈ bytes, b < 256

/-! ### Concrete fixtures used by witnesses and counterexamples -/

/-- Client signing key (private half of pair 1). -/
def kSignC : Key := { kid := "client-sign", alg := "RS256", material := 1 }

/-- Client encryption key (private half of pair 2). -/
def kEncC : Key := { kid := "client-enc", alg := "RSA-OAEP-256", material := 2 }

/-- Server verification key (public half of pair 1). -/
def kSignH : Key := { kid := "hw-sign", alg := "RS256", material := 1 }

/-- Server encryption key (public half of pair 2). -/
def kEncH : Key := { kid := "hw-enc", alg := "RSA-OAEP-256", material := 2 }

/-- Client key store used in concrete scenarios. -/
def clientKs : KeyStore := ⟨[kSignC, kEncC]⟩

/-- Hyperwallet key store used in concrete scenarios. -/
def hwKs : KeyStore := ⟨[kSignH, kEncH]⟩

/-- Environment where both key-set locations are readable files whose
contents parse into the concrete stores, the clock reads an arbitrary
fixed instant, and no cryptographic primitive fails. -/
def envGood : Env :=
  { fileExists := fun p => p = "hw.json" || p = "client.json"
    readFileResult := fun p =>
      if p = "hw.json" then .ok "hw-raw"
      else if p = "client.json" then .ok "client-raw"
      else .error "ENOENT"
    requestResult := fun _ => .error ()
    asKeyStoreResult := fun r =>
      if r = "hw-raw" then some hwKs
      else if r = "client-raw" then some clientKs
      else none
    signFails := fun _ => false
    encryptFails := fun _ => false
    nowMs := 1700000000000 }

/-- Environment where the hyperwallet key set resolves and parses but the
client location is neither an existing file nor a reachable URL. -/
def envClientUnreachable : Env :=
  { envGood with
    fileExists := fun p => p = "hw.json"
    requestResult := fun _ => .error () }

/-- Environment where the key-set location exists as a local file but
reading it fails with a message that does not mention the location. -/
def envReadErr : Env :=
  { envGood with
    fileExists := fun p => p = "keys.json"
    readFileResult := fun _ => .error "EIO: i/o error" }

/-- State with both stores populated (the post-initialization state of a
default instance). -/
def stFull : EncState :=
  { mkEncryption "client.json" "hw.json" with
    clientKeyStore := some clientKs
    hwKeyStore := some hwKs }

/-- State where only the hyperwallet store is populated — reachable by a
`createKeyStore` call whose client half failed. -/
def stHwOnly : EncState :=
  { mkEncryption "client.json" "hw.json" with
    clientKeyStore := none
    hwKeyStore := some hwKs }

/-- A fresh instance with default configuration. -/
def stFresh : EncState := mkEncryption "client.json" "hw.json"

/-- Concrete payload used by witnesses. -/
def payloadC : Json := Json.obj [("amount", Json.num 100)]

/-- A signed body as produced by `signBody` in `envGood` from `stFull`. -/
def signedC : JwsToken :=
  { header := { alg := "RS256"
                crit := ["exp"]
                exp := getSignatureExpirationTime envGood stFull
                kid := "client-sign" }
    payload := Json.stringify payloadC
    sigMaterial := 1
    sigAlg := "RS256" }

/-- A ciphertext as produced by `encryptBody` over `signedC`. -/
def cipherC : JweToken :=
  { alg := "RSA-OAEP-256"
    enc := "A256CBC-HS512"
    kid := "hw-enc"
    plaintext := signedC
    encMaterial := 2 }

/-- A cryptographically valid signed body whose `exp` claim lies one
second before the clock of `envGood`. -/
def tokExpired : JwsToken :=
  { header := { alg := "RS256", crit := ["exp"], exp := 1699999999, kid := "client-sign" }
    payload := "p"
    sigMaterial := 1
    sigAlg := "RS256" }

/-! ### Helper lemmas -/

/-- The clock never exceeds the expiration stamp computed at the same
instant: rounding is monotone in the numerator. -/
theorem getCurrentTime_le_expiration (env : Env) (s : EncState) :
    getCurrentTime env ≤ getSignatureExpirationTime env s := by
  unfold getCurrentTime getSignatureExpirationTime jsRound
  exact Nat.div_le_div_right (by omega)

/-- A key delivered by `keyStore.all({ alg })` carries that algorithm. -/
theorem alg_of_head_all {ks : KeyStore} {a : String} {k : Key}
    (h : (ks.all a).head? = some k) : k.alg = a := by
  have hmem : k ∈ ks.all a := List.mem_of_mem_head? (by rw [h]; rfl)
  exact of_decide_eq_true (List.mem_filter.mp hmem).2

/-- Every list is a prefix of itself. -/
theorem listIsPrefix_refl : ∀ l : List Char, listIsPrefix l l = true
  | [] => rfl
  | a :: as => by simp [listIsPrefix, listIsPrefix_refl as]

/-- A list occurs inside itself. -/
theorem listIsInfix_refl (l : List Char) : listIsInfix l l = true := by
  cases l with
  | nil => rfl
  | cons b bs => simp [listIsInfix, listIsPrefix_refl]

/-- Occurrence survives prepending. -/
theorem listIsInfix_append (a l : List Char) : listIsInfix l (a ++ l) = true := by
  induction a with
  | nil => simpa using listIsInfix_refl l
  | cons x xs ih => simp [listIsInfix, ih]

/-- A string contains any of its suffixes. -/
theorem strContains_append (p q : String) : strContains (p ++ q) q = true := by
  unfold strContains
  rw [show (p ++ q).toList = p.toList ++ q.toList from rfl]
  exact listIsInfix_append p.toList q.toList

/-- Fetch count of one `readKeySet` call: exactly one fetch, of its own
location. -/
theorem readKeySet_fetchCount (env : Env) (l l' : String) :
    fetchCount ((readKeySet env l).1) l' = if l' = l then 1 else 0 := by
  unfold readKeySet fetchCount
  split
  · split <;>
      · by_cases h : l' = l <;>
          simp [List.count_cons, List.count_nil, h, Eff.fsRead.injEq, Eff.netGet.injEq]
  · split <;>
      · by_cases h : l' = l <;>
          simp [List.count_cons, List.count_nil, h, Eff.fsRead.injEq, Eff.netGet.injEq]

/-- Fetch counts add across trace concatenation. -/
theorem fetchCount_append (a b : List Eff) (loc : String) :
    fetchCount (a ++ b) loc = fetchCount a loc + fetchCount b loc := by
  unfold fetchCount
  rw [List.count_append, List.count_append]
  omega

/-- The trace of `createKeyStore` is the hyperwallet fetch alone, or the
hyperwallet fetch followed by the client fetch. -/
theorem createKeyStore_trace_shape (env : Env) (s : EncState) :
    (createKeyStore env s).2.1 = (readKeySet env s.hyperwalletKeySetLocation).1 ∨
    (createKeyStore env s).2.1 =
      (readKeySet env s.hyperwalletKeySetLocation).1 ++
        (readKeySet env s.clientPrivateKeySetLocation).1 := by
  unfold createKeyStore
  rcases hr : readKeySet env s.hyperwalletKeySetLocation with ⟨t1, r1⟩
  rcases r1 with e | hwRaw
  · simp
  · rcases hk : env.asKeyStoreResult hwRaw with _ | hks
    · rcases hc : readKeySet env s.clientPrivateKeySetLocation with ⟨t2, r2⟩
      rcases r2 with e2 | cRaw
      · simp [hk, hc]
      · rcases hck : env.asKeyStoreResult cRaw with _ | cks <;> simp [hk, hc, hck]
    · rcases hc : readKeySet env s.clientPrivateKeySetLocation with ⟨t2, r2⟩
      rcases r2 with e2 | cRaw
      · simp [hk, hc]
      · rcases hck : env.asKeyStoreResult cRaw with _ | cks <;> simp [hk, hc, hck]

/-- State and trace of `encrypt`: the memoized path leaves the state
unchanged with an empty trace; the initialization path yields the state
and trace of one `createKeyStore` call. -/
theorem encrypt_proj (env : Env) (s : EncState) (body : Json) :
    encryptState env s body =
      (if s.clientKeyStore.isSome && s.hwKeyStore.isSome then s
       else (createKeyStore env s).1) ∧
    encryptTrace env s body =
      (if s.clientKeyStore.isSome && s.hwKeyStore.isSome then []
       else (createKeyStore env s).2.1) := by
  unfold encryptState encryptTrace encrypt
  cases hg : s.clientKeyStore.isSome && s.hwKeyStore.isSome
  · simp only [hg, Bool.false_eq_true, if_false]
    cases hcc : (createKeyStore env s).2.2 with
    | error e => simp [hcc]
    | ok u =>
        simp only [hcc]
        cases hsb : signBody env (createKeyStore env s).1 body with
        | error e => simp
        | ok signed => cases heb : encryptBody env (createKeyStore env s).1 signed <;> simp [heb]
  · simp only [hg, if_true]
    cases hsb : signBody env s body with
    | error e => simp
    | ok signed => cases heb : encryptBody env s signed <;> simp [heb]

/-- State and trace of `decrypt`: the (hyperwallet-store-only) memoized
path leaves the state unchanged with an empty trace; the initialization
path yields the state and trace of one `createKeyStore` call. -/
theorem decrypt_proj (env : Env) (s : EncState) (body : JweToken) :
    decryptState env s body =
      (if s.hwKeyStore.isSome then s else (createKeyStore env s).1) ∧
    decryptTrace env s body =
      (if s.hwKeyStore.isSome then [] else (createKeyStore env s).2.1) := by
  unfold decryptState decryptTrace decrypt
  cases hg : s.hwKeyStore.isSome
  · simp only [hg, Bool.false_eq_true, if_false]
    cases hcc : (createKeyStore env s).2.2 with
    | error e => simp [hcc]
    | ok u =>
        simp only [hcc]
        cases hdb : decryptBody (createKeyStore env s).1 body <;> simp [hdb]
  · simp only [hg, if_true]
    cases hdb : decryptBody s body <;> simp [hdb]

/-- Mapping a function that fixes every element of a list is the
identity. -/
theorem map_eq_self_of_eq {α : Type} (f : α → α) :
    ∀ l : List α, (∀ a ∈ l, f a = a) → l.map f = l
  | [], _ => rfl
  | a :: as, h => by
      simp only [List.map_cons, h a (List.mem_cons_self a as)]
      rw [map_eq_self_of_eq f as (fun x hx => h x (List.mem_cons_of_mem a hx))]

/-- Decoding inverts the alphabet map on 6-bit values. -/
theorem b64CharVal_b64Char : ∀ v, v < 64 → b64CharVal (b64Char v) = some v := by decide

/-- The 6-bit values produced by `encodeVals` on a byte buffer are in
range. -/
theorem encodeVals_lt : ∀ bytes : List Nat, bytesValid bytes → ∀ v ∈ encodeVals bytes, v < 64 := by
  intro bytes
  induction bytes using encodeVals.induct with
  | case1 => intro _ v hv; simp [encodeVals] at hv
  | case2 b1 =>
      intro h v hv
      have hb1 : b1 < 256 := h b1 (by simp)
      simp [encodeVals] at hv
      rcases hv with h' | h' <;> omega
  | case3 b1 b2 =>
      intro h v hv
      have hb1 : b1 < 256 := h b1 (by simp)
      have hb2 : b2 < 256 := h b2 (by simp)
      simp [encodeVals] at hv
      rcases hv with h' | h' | h' <;> omega
  | case4 b1 b2 b3 rest ih =>
      intro h v hv
      have hb1 : b1 < 256 := h b1 (by simp)
      have hb2 : b2 < 256 := h b2 (by simp)
      have hb3 : b3 < 256 := h b3 (by simp)
      simp [encodeVals] at hv
      rcases hv with h' | h' | h' | h' | h'
      · omega
      · omega
      · omega
      · omega
      · exact ih (fun b hb => h b (by simp [hb])) v h'

/-- Grouping into 6-bit values and regrouping into bytes is the identity
on byte buffers. -/
theorem decodeVals_encodeVals : ∀ bytes : List Nat, bytesValid bytes →
    decodeVals (encodeVals bytes) = bytes := by
  intro bytes
  induction bytes using encodeVals.induct with
  | case1 => intro _; rfl
  | case2 b1 =>
      intro h
      have hb1 : b1 < 256 := h b1 (by simp)
      simp [encodeVals, decodeVals]
      omega
  | case3 b1 b2 =>
      intro h
      have hb1 : b1 < 256 := h b1 (by simp)
      have hb2 : b2 < 256 := h b2 (by simp)
      simp [encodeVals, decodeVals]
      constructor <;> omega
  | case4 b1 b2 b3 rest ih =>
      intro h
      have hb1 : b1 < 256 := h b1 (by simp)
      have hb2 : b2 < 256 := h b2 (by simp)
      have hb3 : b3 < 256 := h b3 (by simp)
      have ih' := ih (fun b hb => h b (by simp [hb]))
      simp [encodeVals, decodeVals, ih']
      refine ⟨by omega, by omega, by omega⟩

/-- Alphabet encoding then lenient char-by-char decoding is the identity
on in-range value lists. -/
theorem filterMap_map_b64 : ∀ vs : List Nat, (∀ v ∈ vs, v < 64) →
    (vs.map b64Char).filterMap b64CharVal = vs := by
  intro vs
  induction vs with
  | nil => intro _; rfl
  | cons v t ih =>
      intro h
      simp only [List.map_cons, List.filterMap_cons,
        b64CharVal_b64Char v (h v (List.mem_cons_self v t))]
      rw [ih (fun x hx => h x (List.mem_cons_of_mem v hx))]

/-- One segment round-trips: decoding the base64url encoding of a byte
buffer recovers the buffer. -/
theorem decodeSegment_encodeSegment (bytes : List Nat) (h : bytesValid bytes) :
    decodeSegment (encodeSegment bytes) = bytes := by
  unfold decodeSegment encodeSegment
  rw [filterMap_map_b64 _ (encodeVals_lt bytes h), decodeVals_encodeVals bytes h]

/-- Splitting never produces an empty group list. -/
theorem splitOnChar_ne_nil (sep : Char) : ∀ l : List Char, splitOnChar sep l ≠ []
  | [] => by simp [splitOnChar]
  | c :: cs => by
      simp only [splitOnChar]
      split
      · simp
      · split
        · simp
        · simp

/-- Joining the groups produced by splitting restores the original
list. -/
theorem joinChar_splitOnChar (sep : Char) : ∀ l : List Char,
    joinChar sep (splitOnChar sep l) = l := by
  intro l
  induction l with
  | nil => rfl
  | cons c cs ih =>
      simp only [splitOnChar]
      split
      · rename_i hc
        rcases hsp : splitOnChar sep cs with _ | ⟨g, gs⟩
        · exact absurd hsp (splitOnChar_ne_nil sep cs)
        · rw [hsp] at ih
          cases gs with
          | nil => simp [joinChar] at ih ⊢; rw [ih, hc]; exact ⟨rfl, rfl⟩
          | cons g2 gs2 => simp [joinChar] at ih ⊢; rw [ih, hc]; exact ⟨rfl, rfl⟩
      · rename_i hc
        rcases hsp : splitOnChar sep cs with _ | ⟨g, gs⟩
        · exact absurd hsp (splitOnChar_ne_nil sep cs)
        · rw [hsp] at ih
          cases gs with
          | nil => simp [joinChar] at ih ⊢; rw [ih]
          | cons g2 gs2 =>
              simp only [joinChar] at ih ⊢
              rw [← ih]
              simp

/-! ### Claim theorems -/

/-- C2 (code bug): a `decrypt` call on an instance whose hyperwallet key
store is populated but whose client key store is absent does not populate
the client store first — the initialization guard checks only the
hyperwallet store, so `decryptBody` dereferences the absent client store
and the call fails, with the client store still absent afterwards. -/
theorem decrypt_absent_client_store_bug :
    stHwOnly.hwKeyStore = some hwKs ∧
    stHwOnly.clientKeyStore = none ∧
    decrypt envGood stHwOnly cipherC = (stHwOnly, [], .error .absentStore) := by
  refine ⟨rfl, rfl, ?_⟩
  rfl

/-- C4 (counterexample): a failed `createKeyStore` call is not
all-or-nothing.  Starting from an instance with both stores absent, in an
environment where the hyperwallet key set resolves and parses but the
client location is unreachable, the call fails yet leaves the hyperwallet
store newly populated while the client store remains absent. -/
theorem createKeyStore_not_all_or_nothing :
    stFresh.hwKeyStore = none ∧
    stFresh.clientKeyStore = none ∧
    (createKeyStore envClientUnreachable stFresh).2.2 =
      .error (.wrongLocation "client.json") ∧
    (createKeyStore envClientUnreachable stFresh).1.hwKeyStore = some hwKs ∧
    (createKeyStore envClientUnreachable stFresh).1.clientKeyStore = none := by
  refine ⟨rfl, rfl, ?_, ?_, ?_⟩ <;> rfl

/-- C4 (amended): key-store initialization is all-or-nothing per store,
not pairwise: after any `createKeyStore` call, each store individually is
either exactly what it was before or fully populated with the key store
parsed from its fetched key-set document. -/
theorem createKeyStore_per_store_atomic (env : Env) (s : EncState) :
    ((createKeyStore env s).1.hwKeyStore = s.hwKeyStore ∨
      ∃ raw ks, (readKeySet env s.hyperwalletKeySetLocation).2 = .ok raw ∧
        env.asKeyStoreResult raw = some ks ∧
        (createKeyStore env s).1.hwKeyStore = some ks) ∧
    ((createKeyStore env s).1.clientKeyStore = s.clientKeyStore ∨
      ∃ raw ks, (readKeySet env s.clientPrivateKeySetLocation).2 = .ok raw ∧
        env.asKeyStoreResult raw = some ks ∧
        (createKeyStore env s).1.clientKeyStore = some ks) := by
  unfold createKeyStore
  rcases hr : readKeySet env s.hyperwalletKeySetLocation with ⟨t1, r1⟩
  rcases r1 with e | hwRaw
  · simp
  · rcases hk : env.asKeyStoreResult hwRaw with _ | hks
    · rcases hc : readKeySet env s.clientPrivateKeySetLocation with ⟨t2, r2⟩
      rcases r2 with e2 | cRaw
      · simp [hk, hc]
      · rcases hck : env.asKeyStoreResult cRaw with _ | cks
        · simp [hk, hc, hck]
        · refine ⟨Or.inl (by simp [hk, hc, hck]), Or.inr ⟨cRaw, cks, by simp [hc], hck, ?_⟩⟩
          simp [hk, hc, hck]
    · rcases hc : readKeySet env s.clientPrivateKeySetLocation with ⟨t2, r2⟩
      rcases r2 with e2 | cRaw
      · exact ⟨Or.inr ⟨hwRaw, hks, by simp, hk, by simp [hk, hc]⟩,
          Or.inl (by simp [hk, hc])⟩
      · rcases hck : env.asKeyStoreResult cRaw with _ | cks
        · exact ⟨Or.inr ⟨hwRaw, hks, by simp, hk, by simp [hk, hc, hck]⟩,
            Or.inl (by simp [hk, hc, hck])⟩
        · exact ⟨Or.inr ⟨hwRaw, hks, by simp, hk, by simp [hk, hc, hck]⟩,
            Or.inr ⟨cRaw, cks, by simp [hc], hck, by simp [hk, hc, hck]⟩⟩

/-- C6 (counterexample): when the location exists as a local file but
reading it fails, the rejection forwards the filesystem error message
verbatim, which need not carry the original location string. -/
theorem readKeySet_fs_error_omits_location :
    envReadErr.fileExists "keys.json" = true ∧
    (readKeySet envReadErr "keys.json").2 = .error (.fsError "EIO: i/o error") ∧
    strContains (errMessage (.fsError "EIO: i/o error")) "keys.json" = false := by
  refine ⟨rfl, rfl, ?_⟩
  decide

/-- C6 (amended): when the location is not an existing file and the HTTP
request fails, the error carries the original location string; when the
path exists as a local file but reading it fails, the error carries the
underlying filesystem error message verbatim (which need not mention the
location). -/
theorem readKeySet_error_location (env : Env) (loc m : String) :
    (env.fileExists loc = false → ∀ e, (readKeySet env loc).2 = .error e →
      strContains (errMessage e) loc = true) ∧
    (env.fileExists loc = true → env.readFileResult loc = .error m →
      (readKeySet env loc).2 = .error (.fsError m)) := by
  constructor
  · intro hf e he
    unfold readKeySet at he
    rw [hf] at he
    simp only [Bool.false_eq_true, if_false] at he
    cases hrq : env.requestResult loc with
    | ok b => rw [hrq] at he; simp at he
    | error u =>
        rw [hrq] at he
        simp only [Except.error.injEq] at he
        rw [← he]
        exact strContains_append "Wrong JWK set location path = " loc
  · intro ht hm
    unfold readKeySet
    rw [ht, hm]
    simp

/-- Witness for C6 (amended) at concrete locations. -/
theorem readKeySet_error_location_witness :
    envClientUnreachable.fileExists "http://keys" = false ∧
    strContains (errMessage (.wrongLocation "http://keys")) "http://keys" = true ∧
    envReadErr.fileExists "keys.json" = true ∧
    envReadErr.readFileResult "keys.json" = .error "EIO: i/o error" ∧
    (readKeySet envReadErr "keys.json").2 = .error (.fsError "EIO: i/o error") := by
  refine ⟨rfl, ?_, rfl, rfl, ?_⟩
  · exact (readKeySet_error_location envClientUnreachable "http://keys" "x").1 rfl
      (.wrongLocation "http://keys") rfl
  · exact (readKeySet_error_location envReadErr "keys.json" "EIO: i/o error").2 rfl rfl

/-- C8 (counterexample): resolving a location that is not an existing
file (a URL) still performs a filesystem access — the unconditional
`fs.existsSync` probe that classifies the location. -/
theorem readKeySet_url_fs_probe :
    envClientUnreachable.fileExists "http://keys" = false ∧
    Eff.fsExists "http://keys" ∈ (readKeySet envClientUnreachable "http://keys").1 ∧
    Eff.isFsAccess (.fsExists "http://keys") = true := by
  refine ⟨rfl, ?_, rfl⟩
  decide

/-- C8 (amended): for an existing local file no network request is made;
for a non-file (URL) location no file contents are read, and the only
filesystem access performed is the single existence probe on the
location. -/
theorem readKeySet_effect_frame (env : Env) (loc : String) :
    (env.fileExists loc = true → ∀ e ∈ (readKeySet env loc).1, e.isNet = false) ∧
    (env.fileExists loc = false → ∀ e ∈ (readKeySet env loc).1, e.isFsRead = false) ∧
    (env.fileExists loc = false →
      (readKeySet env loc).1.filter Eff.isFsAccess = [.fsExists loc]) := by
  refine ⟨?_, ?_, ?_⟩
  · intro ht e he
    unfold readKeySet at he
    rw [ht] at he
    simp only [if_true] at he
    cases hr : env.readFileResult loc with
    | ok d =>
        rw [hr] at he
        simp at he
        rcases he with h | h <;> simp [h, Eff.isNet]
    | error m =>
        rw [hr] at he
        simp at he
        rcases he with h | h <;> simp [h, Eff.isNet]
  · intro hf e he
    unfold readKeySet at he
    rw [hf] at he
    simp only [Bool.false_eq_true, if_false] at he
    cases hr : env.requestResult loc with
    | ok d =>
        rw [hr] at he
        simp at he
        rcases he with h | h <;> simp [h, Eff.isFsRead]
    | error u =>
        rw [hr] at he
        simp at he
        rcases he with h | h <;> simp [h, Eff.isFsRead]
  · intro hf
    unfold readKeySet
    rw [hf]
    simp only [Bool.false_eq_true, if_false]
    cases hr : env.requestResult loc <;>
      simp [List.filter, Eff.isFsAccess]

/-- Witness for C8 (amended): a file location performs no network
request; a URL location reads no file and its only filesystem access is
the existence probe. -/
theorem readKeySet_effect_frame_witness :
    envGood.fileExists "hw.json" = true ∧
    (∀ e ∈ (readKeySet envGood "hw.json").1, e.isNet = false) ∧
    envGood.fileExists "http://keys" = false ∧
    (∀ e ∈ (readKeySet envGood "http://keys").1, e.isFsRead = false) ∧
    (readKeySet envGood "http://keys").1.filter Eff.isFsAccess =
      [.fsExists "http://keys"] :=
  ⟨rfl, (readKeySet_effect_frame envGood "hw.json").1 rfl, rfl,
    (readKeySet_effect_frame envGood "http://keys").2.1 rfl,
    (readKeySet_effect_frame envGood "http://keys").2.2 rfl⟩


/-- C5: for each of signBody, encryptBody, decryptBody and
checkSignature, an empty algorithm query on the relevant key store (no
key whose algorithm attribute equals the required algorithm) yields the
algorithm-not-provisioned error naming that algorithm — an error distinct
from every cryptographic-failure error — and when at least one matching
key exists, the first key of the store in document order is the one the
operation uses. -/
theorem first_key_selection_and_missing_alg (env : Env) (s : EncState)
    (body : Json) (t : JwsToken) (ct : JweToken) (cks hks : KeyStore)
    (hcs : s.clientKeyStore = some cks) (hhs : s.hwKeyStore = some hks) :
    (∀ (ks : KeyStore) (a : String), ks.all a = [] ↔ ∀ k ∈ ks.keys, ¬k.alg = a) ∧
    (cks.all s.signAlgorithm = [] →
      signBody env s body = .error (.noKeyForAlg s.signAlgorithm)) ∧
    (hks.all s.encryptionAlgorithm = [] →
      encryptBody env s t = .error (.noKeyForAlg s.encryptionAlgorithm)) ∧
    (cks.all s.encryptionAlgorithm = [] →
      decryptBody s ct = .error (.noKeyForAlg s.encryptionAlgorithm)) ∧
    (hks.all s.signAlgorithm = [] →
      checkSignature env s t = .error (.noKeyForAlg s.signAlgorithm)) ∧
    (∀ k, (cks.all s.signAlgorithm).head? = some k →
      signBody env s body = .error (.signFailed k.kid) ∨
      ∃ tk, signBody env s body = .ok tk ∧ tk.header.kid = k.kid ∧
        tk.sigMaterial = k.material) ∧
    (∀ k, (hks.all s.encryptionAlgorithm).head? = some k →
      encryptBody env s t = .error (.encryptFailed k.kid) ∨
      ∃ c, encryptBody env s t = .ok c ∧ c.kid = k.kid ∧ c.encMaterial = k.material) ∧
    (∀ k, (cks.all s.encryptionAlgorithm).head? = some k →
      decryptBody s ct = .error (.decryptFailed k.kid) ∨
      decryptBody s ct = .ok ct.plaintext) ∧
    (∀ k, (hks.all s.signAlgorithm).head? = some k →
      checkSignature env s t = .error (.verifyFailed k.kid) ∨
      checkSignature env s t = .error .signatureExpired ∨
      checkSignature env s t = .ok { payload := t.payload, header := t.header }) ∧
    (∀ a, errMessage (.noKeyForAlg a) =
        "JWK set doesn\x27t contain key with algorithm = " ++ a ∧
      strContains (errMessage (.noKeyForAlg a)) a = true ∧
      ∀ kid, EncErr.noKeyForAlg a ≠ .verifyFailed kid ∧
        EncErr.noKeyForAlg a ≠ .decryptFailed kid ∧
        EncErr.noKeyForAlg a ≠ .encryptFailed kid ∧
        EncErr.noKeyForAlg a ≠ .signFailed kid) := by
  refine ⟨?_, ?_, ?_, ?_, ?_, ?_, ?_, ?_, ?_, ?_⟩
  · intro ks a
    simp [KeyStore.all, List.filter_eq_nil_iff]
  · intro h; simp [signBody, hcs, h]
  · intro h; simp [encryptBody, hhs, h]
  · intro h; simp [decryptBody, hcs, h]
  · intro h; simp [checkSignature, hhs, h]
  · intro k hk
    cases hf : env.signFails k
    · refine Or.inr ⟨{ header := { alg := k.alg, crit := ["exp"],
                                     exp := getSignatureExpirationTime env s,
                                     kid := k.kid },
                         payload := Json.stringify body,
                         sigMaterial := k.material, sigAlg := k.alg },
        ?_, rfl, rfl⟩
      simp [signBody, hcs, hk, hf]
    · exact Or.inl (by simp [signBody, hcs, hk, hf])
  · intro k hk
    cases hf : env.encryptFails k
    · refine Or.inr ⟨{ alg := k.alg, enc := s.encryptionMethod, kid := k.kid,
                         plaintext := t, encMaterial := k.material },
        ?_, rfl, rfl⟩
      simp [encryptBody, hhs, hk, hf]
    · exact Or.inl (by simp [encryptBody, hhs, hk, hf])
  · intro k hk
    by_cases hm : k.material = ct.encMaterial
    · exact Or.inr (by simp [decryptBody, hcs, hk, hm])
    · exact Or.inl (by simp [decryptBody, hcs, hk, hm])
  · intro k hk
    by_cases hv : k.material = t.sigMaterial ∧ k.alg = t.sigAlg
    · by_cases hexp : getCurrentTime env > t.header.exp
      · exact Or.inr (Or.inl (by simp [checkSignature, hhs, hk, hv, hexp]))
      · exact Or.inr (Or.inr (by simp [checkSignature, hhs, hk, hv, hexp]))
    · exact Or.inl (by simp [checkSignature, hhs, hk, hv])
  · intro a
    refine ⟨rfl, strContains_append _ a, ?_⟩
    intro kid
    refine ⟨?_, ?_, ?_, ?_⟩ <;> intro h <;> exact EncErr.noConfusion h

/-- Witness for C5 at a concrete populated instance. -/
theorem first_key_selection_witness :
    stFull.clientKeyStore = some clientKs ∧ stFull.hwKeyStore = some hwKs ∧
    (∀ k, (clientKs.all stFull.signAlgorithm).head? = some k →
      signBody envGood stFull payloadC = .error (.signFailed k.kid) ∨
      ∃ tk, signBody envGood stFull payloadC = .ok tk ∧ tk.header.kid = k.kid ∧
        tk.sigMaterial = k.material) :=
  ⟨rfl, rfl,
    (first_key_selection_and_missing_alg envGood stFull payloadC signedC cipherC
      clientKs hwKs rfl rfl).2.2.2.2.2.1⟩


/-- C7: the expiration stamp is the round-half-up of
`(now_ms + validityMinutes * 60000) / 1000` — the nearest integer in
Unix-epoch seconds — and `signBody` places exactly this value as the
`exp` field of the protected header, declaring `exp` critical alongside
the signing algorithm and the key id. -/
theorem signBody_exp_header (env : Env) (s : EncState) (body : Json)
    (cks : KeyStore) (k : Key)
    (hcs : s.clientKeyStore = some cks)
    (hk : (cks.all s.signAlgorithm).head? = some k)
    (hsf : env.signFails k = false) :
    getSignatureExpirationTime env s =
      jsRound (env.nowMs + s.jwsExpirationMinutes * 60000) 1000 ∧
    (1000 * getSignatureExpirationTime env s ≤
        env.nowMs + s.jwsExpirationMinutes * 60000 + 500 ∧
      env.nowMs + s.jwsExpirationMinutes * 60000 <
        1000 * getSignatureExpirationTime env s + 500) ∧
    ∃ t, signBody env s body = .ok t ∧
      t.header.exp = getSignatureExpirationTime env s ∧
      t.header.crit = ["exp"] ∧
      t.header.alg = k.alg ∧
      t.header.kid = k.kid ∧
      t.payload = Json.stringify body := by
  refine ⟨rfl, ?_, ?_⟩
  · unfold getSignatureExpirationTime jsRound
    omega
  · refine ⟨{ header := { alg := k.alg, crit := ["exp"],
                          exp := getSignatureExpirationTime env s,
                          kid := k.kid },
              payload := Json.stringify body,
              sigMaterial := k.material, sigAlg := k.alg },
      ?_, rfl, rfl, rfl, rfl, rfl⟩
    simp [signBody, hcs, hk, hsf]

/-- Witness for C7 at a concrete instance. -/
theorem signBody_exp_header_witness :
    stFull.clientKeyStore = some clientKs ∧
    (clientKs.all stFull.signAlgorithm).head? = some kSignC ∧
    envGood.signFails kSignC = false ∧
    (∃ t, signBody envGood stFull payloadC = .ok t ∧
      t.header.exp = getSignatureExpirationTime envGood stFull ∧
      t.header.crit = ["exp"] ∧
      t.header.alg = kSignC.alg ∧
      t.header.kid = kSignC.kid ∧
      t.payload = Json.stringify payloadC) :=
  ⟨rfl, rfl, rfl,
    (signBody_exp_header envGood stFull payloadC clientKs kSignC rfl rfl rfl).2.2⟩

/-- C3: on a cryptographically valid envelope, `checkSignature` rejects
with the expiry error exactly when the header's `exp` is strictly below
the current time in seconds (equality is accepted), so an expired but
cryptographically valid envelope is still rejected; when only the
cryptographic gate fails the error is the distinct verification-failure
error. -/
theorem checkSignature_expiry_gate (env : Env) (s : EncState) (t : JwsToken)
    (hks : KeyStore) (k : Key)
    (hhs : s.hwKeyStore = some hks)
    (hk : (hks.all s.signAlgorithm).head? = some k) :
    (k.material = t.sigMaterial ∧ k.alg = t.sigAlg →
      (checkSignature env s t = .error .signatureExpired ↔
        t.header.exp < getCurrentTime env)) ∧
    (k.material = t.sigMaterial ∧ k.alg = t.sigAlg →
      getCurrentTime env ≤ t.header.exp →
      checkSignature env s t = .ok { payload := t.payload, header := t.header }) ∧
    (¬(k.material = t.sigMaterial ∧ k.alg = t.sigAlg) →
      checkSignature env s t = .error (.verifyFailed k.kid)) ∧
    (∀ kid, EncErr.signatureExpired ≠ EncErr.verifyFailed kid) := by
  refine ⟨?_, ?_, ?_, ?_⟩
  · intro hv
    simp only [checkSignature, hhs, hk]
    rw [if_pos hv]
    by_cases hexp : getCurrentTime env > t.header.exp
    · rw [if_pos hexp]
      simp [hexp]
    · rw [if_neg hexp]
      constructor
      · intro h; exact Except.noConfusion h
      · intro h; exact absurd h (by omega)
  · intro hv hle
    simp only [checkSignature, hhs, hk]
    rw [if_pos hv, if_neg (by omega)]
  · intro hnv
    simp only [checkSignature, hhs, hk]
    rw [if_neg hnv]
  · intro kid h
    exact EncErr.noConfusion h

/-- Witness for C3: a concrete expired but cryptographically valid
envelope is rejected with the expiry error. -/
theorem checkSignature_expiry_gate_witness :
    stFull.hwKeyStore = some hwKs ∧
    (hwKs.all stFull.signAlgorithm).head? = some kSignH ∧
    kSignH.material = tokExpired.sigMaterial ∧
    kSignH.alg = tokExpired.sigAlg ∧
    tokExpired.header.exp < getCurrentTime envGood ∧
    checkSignature envGood stFull tokExpired = .error .signatureExpired := by
  refine ⟨rfl, rfl, rfl, rfl, by decide, ?_⟩
  exact ((checkSignature_expiry_gate envGood stFull tokExpired hwKs kSignH rfl rfl).1
    ⟨rfl, rfl⟩).mpr (by decide)


/-- C1: with both stores populated and matching signing and encryption
key pairs provisioned for the configured algorithms, the full
decrypt-of-encrypt round trip succeeds and the verified plaintext equals
the canonical JSON serialization of the payload. -/
theorem encrypt_decrypt_round_trip (env : Env) (s : EncState) (P : Json)
    (cks hks : KeyStore) (kcs khs khe kce : Key)
    (hcs : s.clientKeyStore = some cks) (hhs : s.hwKeyStore = some hks)
    (h1 : (cks.all s.signAlgorithm).head? = some kcs)
    (h2 : (hks.all s.signAlgorithm).head? = some khs)
    (h3 : (hks.all s.encryptionAlgorithm).head? = some khe)
    (h4 : (cks.all s.encryptionAlgorithm).head? = some kce)
    (hm1 : khs.material = kcs.material)
    (hm3 : kce.material = khe.material)
    (hsf : env.signFails kcs = false)
    (hef : env.encryptFails khe = false) :
    encryptState env s P = s ∧
    ∃ ct, encryptRes env s P = .ok ct ∧
      ∃ v, decryptRes env s ct = .ok v ∧ v.payload = Json.stringify P := by
  have hguard : (s.clientKeyStore.isSome && s.hwKeyStore.isSome) = true := by
    rw [hcs, hhs]; rfl
  have hguard2 : s.hwKeyStore.isSome = true := by rw [hhs]; rfl
  have halg : khs.alg = kcs.alg :=
    (alg_of_head_all h2).trans (alg_of_head_all h1).symm
  refine ⟨?_, ?_⟩
  · rw [(encrypt_proj env s P).1, if_pos hguard]
  · unfold encryptRes encrypt
    simp only [hguard, if_true]
    have h_sb : signBody env s P =
        Except.ok
          { header :=
              { alg := kcs.alg, crit := ["exp"],
                exp := getSignatureExpirationTime env s, kid := kcs.kid },
            payload := Json.stringify P,
            sigMaterial := kcs.material, sigAlg := kcs.alg } := by
      simp [signBody, hcs, h1, hsf]
    simp only [h_sb]
    have h_eb : encryptBody env s
        { header :=
            { alg := kcs.alg, crit := ["exp"],
              exp := getSignatureExpirationTime env s, kid := kcs.kid },
          payload := Json.stringify P,
          sigMaterial := kcs.material, sigAlg := kcs.alg } =
        Except.ok
          { alg := khe.alg, enc := s.encryptionMethod, kid := khe.kid,
            plaintext :=
              { header :=
                  { alg := kcs.alg, crit := ["exp"],
                    exp := getSignatureExpirationTime env s, kid := kcs.kid },
                payload := Json.stringify P,
                sigMaterial := kcs.material, sigAlg := kcs.alg },
            encMaterial := khe.material } := by
      simp [encryptBody, hhs, h3, hef]
    simp only [h_eb]
    refine ⟨_, rfl, ?_⟩
    unfold decryptRes decrypt
    simp only [hguard2, if_true]
    have h_db : decryptBody s
        { alg := khe.alg, enc := s.encryptionMethod, kid := khe.kid,
          plaintext :=
            { header :=
                { alg := kcs.alg, crit := ["exp"],
                  exp := getSignatureExpirationTime env s, kid := kcs.kid },
              payload := Json.stringify P,
              sigMaterial := kcs.material, sigAlg := kcs.alg },
          encMaterial := khe.material } =
        Except.ok
          { header :=
              { alg := kcs.alg, crit := ["exp"],
                exp := getSignatureExpirationTime env s, kid := kcs.kid },
            payload := Json.stringify P,
            sigMaterial := kcs.material, sigAlg := kcs.alg } := by
      simp [decryptBody, hcs, h4, hm3]
    simp only [h_db]
    have h_cs : checkSignature env s
        { header :=
            { alg := kcs.alg, crit := ["exp"],
              exp := getSignatureExpirationTime env s, kid := kcs.kid },
          payload := Json.stringify P,
          sigMaterial := kcs.material, sigAlg := kcs.alg } =
        Except.ok
          { payload := Json.stringify P,
            header :=
              { alg := kcs.alg, crit := ["exp"],
                exp := getSignatureExpirationTime env s, kid := kcs.kid } } := by
      simp only [checkSignature, hhs, h2]
      rw [if_pos ⟨hm1, halg⟩,
        if_neg (by
          have := getCurrentTime_le_expiration env s
          simp only [gt_iff_lt, not_lt]
          exact this)]
    simp only [h_cs]
    exact ⟨_, rfl, rfl⟩

/-- Witness for C1 at a concrete matched key-pair configuration. -/
theorem encrypt_decrypt_round_trip_witness :
    stFull.clientKeyStore = some clientKs ∧
    stFull.hwKeyStore = some hwKs ∧
    (clientKs.all stFull.signAlgorithm).head? = some kSignC ∧
    (hwKs.all stFull.signAlgorithm).head? = some kSignH ∧
    (hwKs.all stFull.encryptionAlgorithm).head? = some kEncH ∧
    (clientKs.all stFull.encryptionAlgorithm).head? = some kEncC ∧
    kSignH.material = kSignC.material ∧
    kEncC.material = kEncH.material ∧
    envGood.signFails kSignC = false ∧
    envGood.encryptFails kEncH = false ∧
    (encryptState envGood stFull payloadC = stFull ∧
      ∃ ct, encryptRes envGood stFull payloadC = .ok ct ∧
        ∃ v, decryptRes envGood stFull ct = .ok v ∧
          v.payload = Json.stringify payloadC) :=
  ⟨rfl, rfl, rfl, rfl, rfl, rfl, rfl, rfl, rfl, rfl,
    encrypt_decrypt_round_trip envGood stFull payloadC clientKs hwKs
      kSignC kSignH kEncH kEncC rfl rfl rfl rfl rfl rfl rfl rfl rfl rfl⟩


/-- C9 (counterexample): after a first `encrypt` whose initialization
populated the hyperwallet store but failed on the client store, a second
`encrypt` re-fetches the hyperwallet key set — two sequential `encrypt`
calls fetch that store's key set twice, refuting "at most one key-set
fetch per store" and "a populated store is never re-fetched". -/
theorem encrypt_twice_refetches :
    (encryptState envClientUnreachable stFresh payloadC).hwKeyStore = some hwKs ∧
    Eff.fsRead "hw.json" ∈
      encryptTrace envClientUnreachable
        (encryptState envClientUnreachable stFresh payloadC) payloadC ∧
    fetchCount (encryptTrace envClientUnreachable stFresh payloadC ++
      encryptTrace envClientUnreachable
        (encryptState envClientUnreachable stFresh payloadC) payloadC) "hw.json" = 2 := by
  refine ⟨rfl, ?_, ?_⟩ <;> decide

/-- C9 (amended): once BOTH stores are populated, `encrypt` (and, with
only the hyperwallet store populated, `decrypt`) performs no fetch and
leaves the state unchanged, so a successful first call makes every
subsequent call fetch-free; a single `encrypt` call fetches each
location at most once.  After a failed partial initialization the next
call may re-fetch (see the counterexample). -/
theorem keystore_memoization (env : Env) (s : EncState) (body : Json) (ct : JweToken) :
    (s.clientKeyStore.isSome = true → s.hwKeyStore.isSome = true →
      encryptTrace env s body = [] ∧ encryptState env s body = s) ∧
    (s.hwKeyStore.isSome = true →
      decryptTrace env s ct = [] ∧ decryptState env s ct = s) ∧
    (s.hyperwalletKeySetLocation ≠ s.clientPrivateKeySetLocation →
      fetchCount (encryptTrace env s body) s.hyperwalletKeySetLocation ≤ 1 ∧
      fetchCount (encryptTrace env s body) s.clientPrivateKeySetLocation ≤ 1) ∧
    ((encryptState env s body).clientKeyStore.isSome = true →
      (encryptState env s body).hwKeyStore.isSome = true →
      encryptTrace env (encryptState env s body) body = [] ∧
      encryptState env (encryptState env s body) body = encryptState env s body) := by
  have hmem : ∀ s' : EncState, s'.clientKeyStore.isSome = true →
      s'.hwKeyStore.isSome = true →
      encryptTrace env s' body = [] ∧ encryptState env s' body = s' := by
    intro s' h1 h2
    have hg : (s'.clientKeyStore.isSome && s'.hwKeyStore.isSome) = true := by
      rw [h1, h2]; rfl
    exact ⟨by rw [(encrypt_proj env s' body).2, if_pos hg],
           by rw [(encrypt_proj env s' body).1, if_pos hg]⟩
  refine ⟨hmem s, ?_, ?_, fun h1 h2 => hmem _ h1 h2⟩
  · intro h2
    exact ⟨by rw [(decrypt_proj env s ct).2, if_pos h2],
           by rw [(decrypt_proj env s ct).1, if_pos h2]⟩
  · intro hne
    rw [(encrypt_proj env s body).2]
    by_cases hg : (s.clientKeyStore.isSome && s.hwKeyStore.isSome) = true
    · rw [if_pos hg]
      exact ⟨by simp [fetchCount], by simp [fetchCount]⟩
    · rw [if_neg hg]
      rcases createKeyStore_trace_shape env s with h | h <;> rw [h]
      · rw [readKeySet_fetchCount, readKeySet_fetchCount]
        constructor
        · split <;> omega
        · rw [if_neg (Ne.symm hne)]
          omega
      · rw [fetchCount_append, fetchCount_append, readKeySet_fetchCount,
          readKeySet_fetchCount, readKeySet_fetchCount, readKeySet_fetchCount]
        constructor
        · rw [if_pos rfl, if_neg hne]
        · rw [if_neg (Ne.symm hne), if_pos rfl]

/-- Witness for C9 (amended) on a fully initialized concrete instance. -/
theorem keystore_memoization_witness :
    stFull.clientKeyStore.isSome = true ∧ stFull.hwKeyStore.isSome = true ∧
    stFull.hyperwalletKeySetLocation ≠ stFull.clientPrivateKeySetLocation ∧
    (encryptTrace envGood stFull payloadC = [] ∧
      encryptState envGood stFull payloadC = stFull) ∧
    (decryptTrace envGood stFull cipherC = [] ∧
      decryptState envGood stFull cipherC = stFull) ∧
    (fetchCount (encryptTrace envGood stFull payloadC)
        stFull.hyperwalletKeySetLocation ≤ 1 ∧
      fetchCount (encryptTrace envGood stFull payloadC)
        stFull.clientPrivateKeySetLocation ≤ 1) :=
  ⟨rfl, rfl, by decide,
    (keystore_memoization envGood stFull payloadC cipherC).1 rfl rfl,
    (keystore_memoization envGood stFull payloadC cipherC).2.1 rfl,
    (keystore_memoization envGood stFull payloadC cipherC).2.2.1 (by decide)⟩

/-- C10: splitting a compact envelope of well-formed base64url segments
yields one decoded byte buffer per segment in order, and re-encoding the
buffers and joining with a dot reproduces the original string. -/
theorem base64_segmentwise_round_trip (s : String)
    (h : ∀ seg ∈ splitOnChar '.' s.toList, ∃ bytes, bytesValid bytes ∧
      encodeSegment bytes = seg) :
    (base64Decode s).parts = (splitOnChar '.' s.toList).map decodeSegment ∧
    (base64Decode s).parts.length = (splitOnChar '.' s.toList).length ∧
    base64Encode (base64Decode s) = s := by
  refine ⟨rfl, by simp [base64Decode], ?_⟩
  unfold base64Encode base64Decode
  simp only [List.map_map]
  have hfix : ∀ g ∈ splitOnChar '.' s.toList, (encodeSegment ∘ decodeSegment) g = g := by
    intro g hg
    obtain ⟨bytes, hb, he⟩ := h g hg
    simp only [Function.comp]
    rw [← he, decodeSegment_encodeSegment bytes hb]
  rw [map_eq_self_of_eq _ _ hfix, joinChar_splitOnChar]
  rfl

/-- Witness for C10 on the concrete envelope string `QQ.Qg`. -/
theorem base64_round_trip_witness :
    (∀ seg ∈ splitOnChar '.' ("QQ.Qg" : String).toList, ∃ bytes, bytesValid bytes ∧
      encodeSegment bytes = seg) ∧
    base64Encode (base64Decode "QQ.Qg") = "QQ.Qg" := by
  have hyp : ∀ seg ∈ splitOnChar '.' ("QQ.Qg" : String).toList,
      ∃ bytes, bytesValid bytes ∧ encodeSegment bytes = seg := by
    intro seg hseg
    have hsp : splitOnChar '.' ("QQ.Qg" : String).toList =
        [['Q', 'Q'], ['Q', 'g']] := by decide
    rw [hsp] at hseg
    simp only [List.mem_cons, List.not_mem_nil, or_false] at hseg
    rcases hseg with h | h
    · refine ⟨[65], ?_, by rw [h]; decide⟩
      intro b hb
      simp only [List.mem_singleton] at hb
      omega
    · refine ⟨[66], ?_, by rw [h]; decide⟩
      intro b hb
      simp only [List.mem_singleton] at hb
      omega
  exact ⟨hyp, (base64_segmentwise_round_trip "QQ.Qg" hyp).2.2⟩

end HyperwalletEncryption
